import Mathlib

/-!
Shallow embedding of the rdhcpd DHCP server (src/dhcpd.rs) in Lean 4.

IPv4 addresses are modelled as their `u32` numeric value (a `Nat`), hardware
addresses as lists of bytes, and the lease table (`HashMap<Ipv4Addr, Lease>`
in the source) as an association list with unique keys.  The wall clock
(`utils::now_timestamp_ms`, whose module is not part of src/) is passed in
explicitly as a `now : Nat` parameter; file I/O (persistence) is modelled by
a `saved` flag recording that `save_leases` was called and by taking the
parsed content of the persistence file as an input to `load_leases`.
-/

namespace Rdhcpd

/-- A hardware (MAC) address: the 6 significant bytes of `chaddr`. -/
abbrev Mac := List Nat

/-- Modelled from the spec: the DHCP message types of `options.rs`
(module not under src/), the tagged variant over
{Discover, Offer, Request, Decline, Ack, Nak, Release, Inform}. -/
inductive MessageType where
  | Discover
  | Offer
  | Request
  | Decline
  | Ack
  | Nak
  | Release
  | Inform
deriving DecidableEq, Repr

/-- Modelled from the spec: the DHCP options of `options.rs` (module not
under src/) that the core places in replies: lease time (51), subnet
mask (1), router (3), DNS servers (6), message text (56). -/
inductive DhcpOption where
  | IpAddressLeaseTime (secs : Nat)
  | SubnetMask (mask : Nat)
  | Router (ips : List Nat)
  | DomainNameServer (ips : List Nat)
  | Message (text : String)
deriving DecidableEq, Repr

/-- `struct Lease { mac: [u8; 6], expiry: u128 }` from src/dhcpd.rs. -/
structure Lease where
  mac : Mac
  expiry : Nat
deriving DecidableEq, Repr

/-- `Lease::new` from src/dhcpd.rs. -/
def Lease.new (mac : Mac) (expiry : Nat) : Lease := ⟨mac, expiry⟩

/-- `const INFINITE_LEASE: u128 = 1000 * 86400 * 365;` from src/dhcpd.rs
(the source comment calls this "10 years as ms"). -/
def INFINITE_LEASE : Nat := 1000 * 86400 * 365

/-- The fields of `Config` (src/config.rs) used by the DHCP core.
IPv4 fields carry their u32 numeric value; `end` is a Lean keyword, so the
pool upper bound is written `end_`. -/
structure Config where
  listen_addr : Nat
  start : Nat
  end_ : Nat
  netmask : Nat
  broadcast : Nat
  gateway : Nat
  dns_servers : List Nat
  lease_static : String
  lease_file : String
  lease_time : String
deriving DecidableEq, Repr

/-- Modelled from the spec: the decoded packet fields of `packet.rs`
(module not under src/) that the state machine reads: `chaddr` (first 6
bytes), `ciaddr`, the message type derived from option 53 (`none` when
`message_type()` fails), and option 50 when present as
`DhcpOption::RequestedIpAddress` (`none` otherwise, in which case the
handler falls back to `ciaddr`). -/
structure Packet where
  chaddr : Mac
  ciaddr : Nat
  msgType : Option MessageType
  requestedIp : Option Nat
deriving DecidableEq, Repr

/-- The lease table: `HashMap<Ipv4Addr, Lease>` as an association list
keyed by the address's u32 value. -/
abbrev LeaseMap := List (Nat × Lease)

/-- `HashMap::get`: look up the lease stored for an address. -/
def LeaseMap.get (ls : LeaseMap) (addr : Nat) : Option Lease :=
  List.lookup addr ls

/-- `HashMap::insert`: unconditionally overwrite any entry at `addr`. -/
def LeaseMap.insert (ls : LeaseMap) (addr : Nat) (l : Lease) : LeaseMap :=
  match ls with
  | [] => [(addr, l)]
  | (k, v) :: rest =>
      if k = addr then (addr, l) :: rest
      else (k, v) :: LeaseMap.insert rest addr l

/-- `HashMap::remove`: delete the entry at `addr` if present. -/
def LeaseMap.remove (ls : LeaseMap) (addr : Nat) : LeaseMap :=
  ls.filter (fun kv => kv.1 ≠ addr)

/-- The server state `Dhcpd` from src/dhcpd.rs: configuration, lease
table, allocation cursor, and the parsed lease duration (in seconds). -/
structure Dhcpd where
  conf : Config
  leases : LeaseMap
  last_lease : Nat
  lease_duration : Nat
deriving DecidableEq, Repr

/-- `Dhcpd::start_num` from src/dhcpd.rs. -/
def Dhcpd.start_num (d : Dhcpd) : Nat := d.conf.start

/-- `Dhcpd::end_num` from src/dhcpd.rs. -/
def Dhcpd.end_num (d : Dhcpd) : Nat := d.conf.end_

/-- `Dhcpd::lease_nums` from src/dhcpd.rs: `end_num - start_num` (u32
subtraction; the sane-configuration hypothesis `start_num ≤ end_num`, under
which Nat truncated subtraction agrees with Rust, appears in the theorems
that need it). -/
def Dhcpd.lease_nums (d : Dhcpd) : Nat := d.end_num - d.start_num

/-- `Dhcpd::subnet_mask` from src/dhcpd.rs. -/
def Dhcpd.subnet_mask (d : Dhcpd) : Nat := d.conf.netmask

/-- `Dhcpd::gateway_ip` from src/dhcpd.rs. -/
def Dhcpd.gateway_ip (d : Dhcpd) : Nat := d.conf.gateway

/-- `Dhcpd::dns_servers` from src/dhcpd.rs. -/
def Dhcpd.dns_servers (d : Dhcpd) : List Nat := d.conf.dns_servers

/-- `Dhcpd::lease_secs` from src/dhcpd.rs: `lease_duration.as_secs() as u32`. -/
def Dhcpd.lease_secs (d : Dhcpd) : Nat := d.lease_duration % 2 ^ 32

/-- `Dhcpd::available` from src/dhcpd.rs: the candidate's u32 value lies in
`[start_num, start_num + lease_nums)` and either no lease exists for it, or
the lease's holder is `chaddr`, or `now_timestamp_ms() > expiry`. -/
def Dhcpd.available (d : Dhcpd) (now : Nat) (chaddr : Mac) (addr : Nat) : Bool :=
  decide (d.start_num ≤ addr) &&
  decide (addr < d.start_num + d.lease_nums) &&
  match d.leases.get addr with
  | some lease => decide (lease.mac = chaddr) || decide (now > lease.expiry)
  | none => true

/-- `Dhcpd::current_lease` from src/dhcpd.rs: first address in the table
whose lease holder is `chaddr`. -/
def Dhcpd.current_lease (d : Dhcpd) (chaddr : Mac) : Option Nat :=
  (d.leases.find? (fun kv => kv.2.mac = chaddr)).map (·.1)

/-- A reply handed to `server.reply`: the message type, the option list,
and the address placed in `yiaddr`. -/
structure Reply where
  msgType : MessageType
  options : List DhcpOption
  yiaddr : Nat
deriving DecidableEq, Repr

/-- `Dhcpd::nak` from src/dhcpd.rs: a Nak carrying only a Message option
and a zero target address. -/
def Dhcpd.nak (message : String) : Reply :=
  ⟨MessageType.Nak, [DhcpOption.Message message], 0⟩

/-- `Dhcpd::reply` from src/dhcpd.rs: an Offer/Ack carrying lease time,
subnet mask, router and DNS servers, targeted at `offer_ip`. -/
def Dhcpd.reply (d : Dhcpd) (msgType : MessageType) (offer_ip : Nat) : Reply :=
  ⟨msgType,
   [DhcpOption.IpAddressLeaseTime d.lease_secs,
    DhcpOption.SubnetMask d.subnet_mask,
    DhcpOption.Router [d.gateway_ip],
    DhcpOption.DomainNameServer d.dns_servers],
   offer_ip⟩

/-- The outcome of one `handle_request` call: the new server state, the
reply sent (if any), and whether `save_leases` (persistence) was invoked. -/
structure HandleResult where
  state : Dhcpd
  reply : Option Reply
  saved : Bool
deriving DecidableEq, Repr

/-- The Discover allocation loop from `handle_request` (src/dhcpd.rs lines
156-164): `for _ in 0..lease_nums { last_lease = (last_lease+1) % lease_nums;
if available(chaddr, start_num + last_lease) { reply; break } }`, written
with the iteration count as explicit fuel.  Returns the final cursor and
the offered address, if any. -/
def allocLoop (d : Dhcpd) (now : Nat) (chaddr : Mac) (ll : Nat) : Nat → Nat × Option Nat
  | 0 => (ll, none)
  | fuel + 1 =>
      let ll2 := (ll + 1) % d.lease_nums
      let off := d.start_num + ll2
      if d.available now chaddr off then (ll2, some off)
      else allocLoop d now chaddr ll2 fuel

/-- The requested address of a Request (src/dhcpd.rs lines 174-177):
option 50 when present as `RequestedIpAddress`, otherwise `ciaddr`. -/
def Packet.req_ip (p : Packet) : Nat :=
  match p.requestedIp with
  | some x => x
  | none => p.ciaddr

/-- `handle_request` from src/dhcpd.rs (impl server::Handler for Dhcpd).
`fts` is the value of `server.for_this_server(&in_packet)` (the `server`
module is not under src/); in the Request arm the rejecting branch is
commented out in the source, so `fts` is not consulted there, while the
Release/Decline arm returns early when `fts` is false. -/
def handle_request (fts : Bool) (now : Nat) (d : Dhcpd) (p : Packet) : HandleResult :=
  match p.msgType with
  | some MessageType.Discover =>
      match d.current_lease p.chaddr with
      | some ip => ⟨d, some (d.reply MessageType.Offer ip), false⟩
      | none =>
          match allocLoop d now p.chaddr d.last_lease d.lease_nums with
          | (ll, some off) =>
              ⟨{ d with last_lease := ll }, some (d.reply MessageType.Offer off), false⟩
          | (ll, none) =>
              ⟨{ d with last_lease := ll }, none, false⟩
  | some MessageType.Request =>
      let req_ip := p.req_ip
      match d.current_lease p.chaddr with
      | some ip => ⟨d, some (d.reply MessageType.Ack ip), false⟩
      | none =>
          if ¬ d.available now p.chaddr req_ip then
            ⟨d, some (Dhcpd.nak "Requested IP not available"), false⟩
          else
            ⟨{ d with leases := d.leases.insert req_ip (Lease.new p.chaddr now) },
             some (d.reply MessageType.Ack req_ip), true⟩
  | some MessageType.Release | some MessageType.Decline =>
      if ¬ fts then ⟨d, none, false⟩
      else
        match d.current_lease p.chaddr with
        | some ip => ⟨{ d with leases := d.leases.remove ip }, none, true⟩
        | none => ⟨d, none, false⟩
  | _ => ⟨d, none, false⟩

/-- Split a character list on a separator, the way Rust's
`str::split(',').collect::<Vec<_>>()` splits a line into fields (an empty
input yields one empty field). -/
def splitOnChar (sep : Char) : List Char → List (List Char)
  | [] => [[]]
  | c :: rest =>
      match splitOnChar sep rest with
      | [] => [[c]]
      | h :: t => if c = sep then [] :: h :: t else (c :: h) :: t

/-- Strip leading and trailing whitespace, the way Rust's `str::trim` does. -/
def trimList (cs : List Char) : List Char :=
  ((cs.dropWhile Char.isWhitespace).reverse.dropWhile Char.isWhitespace).reverse

/-- The numeric value of a hex digit, if the character is one. -/
def hexDigitVal (c : Char) : Option Nat :=
  if '0' ≤ c ∧ c ≤ '9' then some (c.toNat - 48)
  else if 'a' ≤ c ∧ c ≤ 'f' then some (c.toNat - 87)
  else if 'A' ≤ c ∧ c ≤ 'F' then some (c.toNat - 70)
  else none

/-- One hexadecimal byte of a MAC address: one or two hex digits. -/
def parseHexByte (cs : List Char) : Option Nat :=
  match cs with
  | [c] => hexDigitVal c
  | [c1, c2] =>
      match hexDigitVal c1, hexDigitVal c2 with
      | some h, some l => some (h * 16 + l)
      | _, _ => none
  | _ => none

/-- Modelled from the spec: `MacAddress::from_str` of the external
`mac_address` crate (not under src/), applied to the first field of a
static-assignment line (`<hardware-address>,<ipv4-address>`): six
colon-separated hexadecimal bytes. -/
def parseMacAddress (cs : List Char) : Option Mac :=
  match (splitOnChar ':' cs).mapM parseHexByte with
  | some bytes => if bytes.length = 6 then some bytes else none
  | none => none

/-- The value of a string of decimal digits. -/
def decValue (cs : List Char) : Nat :=
  cs.foldl (fun a c => a * 10 + (c.toNat - 48)) 0

/-- One decimal octet of a dotted-quad IPv4 address: nonempty, digits only,
no leading zero (except "0" itself), value at most 255 — the grammar of
Rust's `Ipv4Addr::from_str`. -/
def parseDecOctet (cs : List Char) : Option Nat :=
  if cs ≠ [] ∧ cs.all (·.isDigit) ∧ (cs.length = 1 ∨ cs.head? ≠ some '0')
      ∧ decValue cs ≤ 255 then
    some (decValue cs)
  else none

/-- Modelled from the spec: `Ipv4Addr::from_str` (Rust standard library,
not under src/), applied to the second field of a static-assignment line:
a dotted quad, returned as the address's u32 value. -/
def parseIpv4 (cs : List Char) : Option Nat :=
  match splitOnChar '.' cs with
  | [a, b, c, d] =>
      match parseDecOctet a, parseDecOctet b, parseDecOctet c, parseDecOctet d with
      | some va, some vb, some vc, some vd =>
          some (va * 2 ^ 24 + vb * 2 ^ 16 + vc * 2 ^ 8 + vd)
      | _, _, _, _ => none
  | _ => none

/-- One line of the static-assignment file, as processed by `load_leases`
(src/dhcpd.rs lines 245-257): a line splitting on `,` into exactly two
fields parses the MAC and the trimmed IPv4 and inserts a lease expiring at
`now + INFINITE_LEASE`, with a parse failure panicking via `unwrap`
(modelled as `none`); any other line is skipped. -/
def load_static_line (now : Nat) (leases : LeaseMap) (line : List Char) :
    Option LeaseMap :=
  match splitOnChar ',' line with
  | [p0, p1] =>
      match parseMacAddress p0, parseIpv4 (trimList p1) with
      | some mac, some ip =>
          some (leases.insert ip (Lease.new mac (now + INFINITE_LEASE)))
      | _, _ => none
  | _ => some leases

/-- `load_leases` from src/dhcpd.rs.  `persisted` is the lease table parsed
from the persistence file (empty when the file is missing, unreadable or
malformed — that degradation happens before this point); `staticLines` are
the lines of the static-assignment file.  `last_lease` is folded over the
persisted entries (before the static overlay) keeping the largest key `ux`
with `ux > last_lease && ux > start && ux < end`; then the static lines are
processed in order, a panic anywhere yielding `none` for the whole load. -/
def load_leases (persisted : LeaseMap) (staticLines : List (List Char))
    (now start end_ : Nat) : Option (LeaseMap × Nat) :=
  let last_lease := persisted.foldl
    (fun acc kv => if kv.1 > acc ∧ kv.1 > start ∧ kv.1 < end_ then kv.1 else acc) 0
  match staticLines.foldlM (load_static_line now) persisted with
  | some leases => some (leases, last_lease)
  | none => none

/-- `Dhcpd::new` from src/dhcpd.rs, with the duration-string parse
(`duration_str::parse`, external crate) taken as the already-parsed number
of seconds `lease_duration`.  In the source `load_leases` always returns
`Ok`, so the `hm.is_ok()` branch is the one taken (a static-line parse
failure panics instead, modelled as `none`). -/
def Dhcpd.new (conf : Config) (persisted : LeaseMap)
    (staticLines : List (List Char)) (now lease_duration : Nat) : Option Dhcpd :=
  match load_leases persisted staticLines now conf.start conf.end_ with
  | some (hm, last_lease) => some ⟨conf, hm, last_lease, lease_duration⟩
  | none => none

/-- Whether a static-assignment line is well formed: it splits on `,` into
exactly two fields, the first parsing as a MAC address and the second
(trimmed) as an IPv4 address. -/
def lineWellFormed (line : List Char) : Bool :=
  match splitOnChar ',' line with
  | [p0, p1] =>
      match parseMacAddress p0, parseIpv4 (trimList p1) with
      | some _, some _ => true
      | _, _ => false
  | _ => false

/-- Whether a line splits on `,` into exactly two fields but one of the two
field parses fails — the shape that reaches an `unwrap` and panics. -/
def lineTwoFieldsBadParse (line : List Char) : Bool :=
  match splitOnChar ',' line with
  | [p0, p1] =>
      match parseMacAddress p0, parseIpv4 (trimList p1) with
      | some _, some _ => false
      | _, _ => true
  | _ => false

/-- Stated from the claim's words (for comparison with the code): the
highest pool-relative index (offset from `start`) among all entries of a
lease table whose address lies within `[start, end)`. -/
def claimLastLease (leases : LeaseMap) (start end_ : Nat) : Nat :=
  ((leases.map Prod.fst).filter (fun a => start ≤ a ∧ a < end_)).foldr
    (fun a m => max (a - start) m) 0

/-- The value `load_leases` actually computes for `last_lease`: the largest
persisted key strictly between `start` and `end_` (0 when there is none). -/
def codeLastLease (persisted : LeaseMap) (start end_ : Nat) : Nat :=
  ((persisted.map Prod.fst).filter (fun a => start < a ∧ a < end_)).foldr max 0

/-- Whether an option is the `IpAddressLeaseTime` (lease duration) option. -/
def DhcpOption.isLeaseTime : DhcpOption → Bool
  | DhcpOption.IpAddressLeaseTime _ => true
  | _ => false

/-- A reply with its `IpAddressLeaseTime` option removed: what remains of a
reply once the part carrying the configured lease duration is ignored. -/
def Reply.stripLeaseTime (r : Reply) : Reply :=
  ⟨r.msgType, r.options.filter (fun o => ¬ o.isLeaseTime), r.yiaddr⟩

/-- Example configuration: listen/gateway 10.0.0.1, pool
[10.0.0.10, 10.0.0.20), netmask 255.255.255.0, broadcast 10.0.0.255,
DNS 8.8.8.8 (all as u32 values). -/
def exConf : Config :=
  ⟨167772161, 167772170, 167772180, 4294967040, 167772415, 167772161,
   [134744072], "static", "leases", "24h"⟩

/-- Example hardware address aa:bb:cc:dd:ee:01. -/
def exMacA : Mac := [170, 187, 204, 221, 238, 1]

/-- Example hardware address aa:bb:cc:dd:ee:02. -/
def exMacB : Mac := [170, 187, 204, 221, 238, 2]

/-- Example server state with an empty lease table. -/
def exEmpty : Dhcpd := ⟨exConf, [], 0, 86400⟩

/-- Example Request for 10.0.0.15 from `exMacA` (option 50 present). -/
def pktA : Packet := ⟨exMacA, 0, some MessageType.Request, some 167772175⟩

/-- Example Request for 10.0.0.15 from `exMacB` (option 50 present). -/
def pktB : Packet := ⟨exMacB, 0, some MessageType.Request, some 167772175⟩

/-- Example server state over the two-address pool [10.0.0.10, 10.0.0.12). -/
def smallPool : Dhcpd :=
  ⟨⟨167772161, 167772170, 167772172, 4294967040, 167772415, 167772161,
    [134744072], "static", "leases", "24h"⟩, [], 0, 86400⟩

/-- Example Discover from `exMacA`. -/
def discA : Packet := ⟨exMacA, 0, some MessageType.Discover, none⟩

/-- Example server state where `exMacA` holds 10.0.0.15 far into the future. -/
def heldD : Dhcpd := ⟨exConf, [(167772175, Lease.new exMacA 99999999999)], 0, 86400⟩

/-- Example Release from `exMacA`. -/
def relA : Packet := ⟨exMacA, 167772175, some MessageType.Release, none⟩

/-- Example server state over [10.0.0.10, 10.0.0.12) with both pool
addresses leased to `exMacB` far into the future. -/
def fullPool : Dhcpd :=
  ⟨⟨167772161, 167772170, 167772172, 4294967040, 167772415, 167772161,
    [134744072], "static", "leases", "24h"⟩,
   [(167772170, Lease.new exMacB 99999999999),
    (167772171, Lease.new exMacB 99999999999)], 0, 86400⟩

/-- Example persisted lease table holding 10.0.0.12. -/
def persisted6 : LeaseMap := [(167772172, Lease.new exMacA 999999)]

/-- Example static-assignment file content mapping aa:bb:cc:dd:ee:02 to
10.0.0.19. -/
def static6 : List (List Char) := ["aa:bb:cc:dd:ee:02,10.0.0.19".toList]

theorem get_insert (ls : LeaseMap) (k : Nat) (v : Lease) (i : Nat) :
    (ls.insert k v).get i = if i = k then some v else ls.get i := by
  induction ls with
  | nil =>
      by_cases hik : i = k
      · subst hik; simp [LeaseMap.insert, LeaseMap.get, List.lookup]
      · have hb : (i == k) = false := by simp [hik]
        simp [LeaseMap.insert, LeaseMap.get, List.lookup, hb, hik]
  | cons hd tl ih =>
      obtain ⟨a, b⟩ := hd
      by_cases hak : a = k
      · subst hak
        by_cases hia : i = a
        · subst hia; simp [LeaseMap.insert, LeaseMap.get, List.lookup]
        · have hb : (i == a) = false := by simp [hia]
          simp [LeaseMap.insert, LeaseMap.get, List.lookup, hb, hia]
      · by_cases hia : i = a
        · subst hia
          have hik : ¬ i = k := fun h => hak h.symm.symm
          simp [LeaseMap.insert, hak, LeaseMap.get, List.lookup, hik]
        · have hb : (i == a) = false := by simp [hia]
          have ih2 : List.lookup i (LeaseMap.insert tl k v)
              = if i = k then some v else List.lookup i tl := ih
          simp [LeaseMap.insert, hak, LeaseMap.get, List.lookup, hb, ih2]

theorem available_true_bounds (d : Dhcpd) (now : Nat) (ch : Mac) (ip : Nat)
    (h : d.available now ch ip = true) :
    d.start_num ≤ ip ∧ ip < d.start_num + d.lease_nums := by
  unfold Dhcpd.available at h
  simp only [Bool.and_eq_true, decide_eq_true_eq] at h
  exact ⟨h.1.1, h.1.2⟩

theorem start_num_set_duration (d : Dhcpd) (x : Nat) :
    Dhcpd.start_num { d with lease_duration := x } = d.start_num := rfl

theorem lease_nums_set_duration (d : Dhcpd) (x : Nat) :
    Dhcpd.lease_nums { d with lease_duration := x } = d.lease_nums := rfl

theorem available_set_duration (d : Dhcpd) (x now : Nat) (ch : Mac) (ip : Nat) :
    Dhcpd.available { d with lease_duration := x } now ch ip
      = d.available now ch ip := rfl

theorem current_lease_set_duration (d : Dhcpd) (x : Nat) (ch : Mac) :
    Dhcpd.current_lease { d with lease_duration := x } ch = d.current_lease ch := rfl

theorem reply_strip_set_duration (d : Dhcpd) (x : Nat) (t : MessageType) (ip : Nat) :
    (Dhcpd.reply { d with lease_duration := x } t ip).stripLeaseTime
      = (d.reply t ip).stripLeaseTime := rfl

theorem allocLoop_set_duration (d : Dhcpd) (x now : Nat) (ch : Mac) (fuel : Nat) :
    ∀ ll, allocLoop { d with lease_duration := x } now ch ll fuel
      = allocLoop d now ch ll fuel := by
  induction fuel with
  | zero => intro ll; rfl
  | succ n ih =>
      intro ll
      simp only [allocLoop, available_set_duration, lease_nums_set_duration,
        start_num_set_duration, ih]

/-- C3: evaluation of the static-lease expiry at a concrete load.
`INFINITE_LEASE` is `1000 * 86400 * 365` milliseconds, i.e. 365 days, and
a static line is materialized with expiry `load time + INFINITE_LEASE`,
which differs from the ten years (in milliseconds) that both the claim and
the source's own comment ("10 years as ms") state. -/
theorem infinite_lease_is_one_year_not_ten :
    INFINITE_LEASE = 31536000000 ∧
    10 * 365 * 86400 * 1000 = 315360000000 ∧
    INFINITE_LEASE ≠ 10 * 365 * 86400 * 1000 ∧
    load_leases [] ["aa:bb:cc:dd:ee:01,10.0.0.15".toList] 5000 167772170 167772180
      = some ([(167772175, Lease.new exMacA (5000 + INFINITE_LEASE))], 0) ∧
    5000 + INFINITE_LEASE ≠ 5000 + 10 * 365 * 86400 * 1000 :=
  ⟨rfl, rfl, by decide, rfl, by decide⟩

/-- C10: counterexample.  The line "garbage" does not split on `,` into two
fields, so it is not well formed, yet `load_leases` skips it and completes
(returns `some`) instead of aborting — refuting that every malformed static
line aborts the whole load. -/
theorem malformed_line_skipped_not_fatal :
    lineWellFormed "garbage".toList = false ∧
    load_leases [] ["garbage".toList] 0 167772170 167772180 = some ([], 0) :=
  ⟨rfl, rfl⟩

/-- C1: code-bug evidence.  Client A's Request for 10.0.0.15 at time 1000
is Acked and the lease inserted (with expiry 1000, the insertion time);
client B's Request for the same address at the strictly later time 1001 is
then also Acked — not Nak'd — and the store afterwards maps 10.0.0.15 to B,
because `available` sees A's lease as already expired. -/
theorem contention_second_request_acked :
    (handle_request true 1000 exEmpty pktA
      = ⟨⟨exConf, [(167772175, Lease.new exMacA 1000)], 0, 86400⟩,
         some (exEmpty.reply MessageType.Ack 167772175), true⟩) ∧
    (handle_request true 1001 (handle_request true 1000 exEmpty pktA).state pktB
      = ⟨⟨exConf, [(167772175, Lease.new exMacB 1001)], 0, 86400⟩,
         some ((handle_request true 1000 exEmpty pktA).state.reply
                MessageType.Ack 167772175), true⟩) ∧
    ((handle_request true 1001 (handle_request true 1000 exEmpty pktA).state pktB).reply.map
        Reply.msgType = some MessageType.Ack) ∧
    ((handle_request true 1001 (handle_request true 1000 exEmpty pktA).state pktB).state.leases.get
        167772175 = some (Lease.new exMacB 1001)) :=
  ⟨rfl, rfl, rfl, rfl⟩

/-- C4: counterexample.  Over the empty two-address pool
[10.0.0.10, 10.0.0.12), a Discover from `exMacA` is offered 10.0.0.11, and
a second consecutive Discover from the same hardware address (no
intervening Request) is offered 10.0.0.10 — a different address, because a
Discover records no lease and the cursor advances. -/
theorem discover_twice_different_offer :
    ((handle_request true 0 smallPool discA).reply.map Reply.yiaddr
      = some 167772171) ∧
    ((handle_request true 0 (handle_request true 0 smallPool discA).state
        discA).reply.map Reply.yiaddr = some 167772170) ∧
    (167772171 : Nat) ≠ 167772170 :=
  ⟨rfl, rfl, by decide⟩

/-- C5: counterexample.  For a Release from a client holding a lease, the
handler's effect depends on `for_this_server`: when it is true the lease is
removed and the store persisted, when it is false the handler returns early
leaving the store untouched — so processing of Release is gated on the
predicate, refuting that it is advisory for all of Request/Release/Decline. -/
theorem release_gated_by_for_this_server :
    (handle_request true 0 heldD relA).state.leases = [] ∧
    (handle_request false 0 heldD relA).state.leases
      = [(167772175, Lease.new exMacA 99999999999)] ∧
    handle_request true 0 heldD relA ≠ handle_request false 0 heldD relA :=
  ⟨rfl, rfl, by decide⟩

/-- C6: counterexample.  With the pool [10.0.0.11, 10.0.0.21), a persisted
lease at 10.0.0.12 and a static assignment at 10.0.0.19, the claim's
last_lease (highest pool-relative offset after the static overlay) would be
8, but `load_leases` computes 167772172 — the absolute u32 address of the
persisted entry, ignoring the static overlay. -/
theorem last_lease_absolute_not_offset :
    ((load_leases persisted6 static6 0 167772171 167772181).map Prod.snd
      = some 167772172) ∧
    ((load_leases persisted6 static6 0 167772171 167772181).map
        (fun x => claimLastLease x.1 167772171 167772181) = some 8) ∧
    (167772172 : Nat) ≠ 8 :=
  ⟨rfl, rfl, by decide⟩

/-- C7: `available(h, ip)` is true iff `ip` lies in `[start_num, end_num)`
and either no lease exists for it, or the lease's holder is `h`, or the
lease's expiry is strictly in the past at the time of the call. -/
theorem available_iff (d : Dhcpd) (now : Nat) (h : Mac) (ip : Nat)
    (hp : d.start_num ≤ d.end_num) :
    d.available now h ip = true ↔
      (d.start_num ≤ ip ∧ ip < d.end_num ∧
        (d.leases.get ip = none ∨
          ∃ l, d.leases.get ip = some l ∧ (l.mac = h ∨ l.expiry < now))) := by
  have hrange : d.start_num + d.lease_nums = d.end_num := by
    unfold Dhcpd.lease_nums; omega
  unfold Dhcpd.available
  rw [hrange]
  cases hll : d.leases.get ip with
  | none =>
      simp [hll, Bool.and_eq_true, Bool.or_eq_true, decide_eq_true_eq]
  | some l =>
      simp [hll, Bool.and_eq_true, Bool.or_eq_true, decide_eq_true_eq]
      tauto

/-- Instantiation of `available_iff` at a concrete state: 10.0.0.15 is held
by `exMacA` with a far-future expiry, so for `exMacB` at time 0 the
predicate is decided by the membership conditions shown. -/
theorem available_iff_witness :
    heldD.start_num ≤ heldD.end_num ∧
    (heldD.available 0 exMacB 167772175 = true ↔
      (heldD.start_num ≤ 167772175 ∧ 167772175 < heldD.end_num ∧
        (heldD.leases.get 167772175 = none ∨
          ∃ l, heldD.leases.get 167772175 = some l ∧
            (l.mac = exMacB ∨ l.expiry < 0)))) :=
  ⟨by decide, available_iff heldD 0 exMacB 167772175 (by decide)⟩

/-- C9: over a sane pool (`start_num ≤ end_num`), every address the
Discover allocation loop returns lies in `[start_num, end_num)`; the
Discover branch only offers such addresses; and when the loop — run with
exactly `lease_nums = end_num - start_num` iterations of fuel, as the
handler runs it — finds nothing, the handler sends no Offer at all. -/
theorem pool_bound_invariant (d : Dhcpd) (now : Nat)
    (hp : d.start_num ≤ d.end_num) :
    (∀ ch fuel ll ll2 off, allocLoop d now ch ll fuel = (ll2, some off) →
        d.start_num ≤ off ∧ off < d.end_num) ∧
    (∀ fts p r, p.msgType = some MessageType.Discover →
        d.current_lease p.chaddr = none →
        (handle_request fts now d p).reply = some r →
        d.start_num ≤ r.yiaddr ∧ r.yiaddr < d.end_num) ∧
    (∀ fts p, p.msgType = some MessageType.Discover →
        d.current_lease p.chaddr = none →
        (allocLoop d now p.chaddr d.last_lease d.lease_nums).2 = none →
        (handle_request fts now d p).reply = none) := by
  have hrange : d.start_num + d.lease_nums = d.end_num := by
    unfold Dhcpd.lease_nums; omega
  have main : ∀ ch fuel ll ll2 off, allocLoop d now ch ll fuel = (ll2, some off) →
      d.start_num ≤ off ∧ off < d.end_num := by
    intro ch fuel
    induction fuel with
    | zero => intro ll ll2 off h; simp [allocLoop] at h
    | succ n ih =>
        intro ll ll2 off h
        simp only [allocLoop] at h
        split at h
        · rename_i hcond
          simp only [Prod.mk.injEq, Option.some.injEq] at h
          have hb := available_true_bounds d now ch _ hcond
          omega
        · exact ih _ _ _ h
  refine ⟨main, ?_, ?_⟩
  · intro fts p r hmsg hcur hrep
    cases ha : allocLoop d now p.chaddr d.last_lease d.lease_nums with
    | mk ll ro =>
        cases ro with
        | none => simp [handle_request, hmsg, hcur, ha] at hrep
        | some off =>
            simp [handle_request, hmsg, hcur, ha] at hrep
            have hb := main p.chaddr d.lease_nums d.last_lease ll off ha
            rw [← hrep]
            simpa [Dhcpd.reply] using hb
  · intro fts p hmsg hcur hnone
    cases ha : allocLoop d now p.chaddr d.last_lease d.lease_nums with
    | mk ll ro =>
        cases ro with
        | some off => rw [ha] at hnone; simp at hnone
        | none => simp [handle_request, hmsg, hcur, ha]

/-- Instantiation of `pool_bound_invariant`: over the empty two-address
pool the loop's offer 10.0.0.11 is within bounds, and over the fully
leased pool a Discover from a stranger draws no reply. -/
theorem pool_bound_invariant_witness :
    (smallPool.start_num ≤ smallPool.end_num ∧
      (smallPool.start_num ≤ 167772171 ∧ 167772171 < smallPool.end_num)) ∧
    (handle_request true 0 fullPool discA).reply = none :=
  ⟨⟨by decide,
    (pool_bound_invariant smallPool 0 (by decide)).1 exMacA 2 0 1 167772171 rfl⟩,
   (pool_bound_invariant fullPool 0 (by decide)).2.2 true discA rfl rfl rfl⟩

/-- C4: amended — when the hardware address already holds a lease, a
Discover re-offers exactly that address and leaves the state unchanged, so
a second consecutive Discover (any `for_this_server` value, any later
time) offers the same address again. -/
theorem discover_reoffers_current_lease (fts fts2 : Bool) (now now2 : Nat)
    (d : Dhcpd) (p : Packet) (ip : Nat)
    (hmsg : p.msgType = some MessageType.Discover)
    (hcur : d.current_lease p.chaddr = some ip) :
    handle_request fts now d p = ⟨d, some (d.reply MessageType.Offer ip), false⟩ ∧
    handle_request fts2 now2 (handle_request fts now d p).state p
      = ⟨d, some (d.reply MessageType.Offer ip), false⟩ := by
  have h1 : handle_request fts now d p
      = ⟨d, some (d.reply MessageType.Offer ip), false⟩ := by
    simp [handle_request, hmsg, hcur]
  exact ⟨h1, by rw [h1]; simp [handle_request, hmsg, hcur]⟩

/-- Instantiation of `discover_reoffers_current_lease`: `exMacA` holds
10.0.0.15, and both of two consecutive Discovers are offered it. -/
theorem discover_reoffers_current_lease_witness :
    heldD.current_lease discA.chaddr = some 167772175 ∧
    (handle_request true 5 heldD discA
        = ⟨heldD, some (heldD.reply MessageType.Offer 167772175), false⟩ ∧
      handle_request false 7 (handle_request true 5 heldD discA).state discA
        = ⟨heldD, some (heldD.reply MessageType.Offer 167772175), false⟩) :=
  ⟨rfl, discover_reoffers_current_lease true false 5 7 heldD discA 167772175 rfl rfl⟩

/-- C5: amended — the `for_this_server` result is advisory for Request
(the handler behaves identically whether it is true or false), while for
Release and Decline a false result makes the handler return early with no
store mutation, no reply and no persist. -/
theorem for_this_server_advisory_for_request_only (now : Nat) (d : Dhcpd)
    (p : Packet) :
    (p.msgType = some MessageType.Request →
      handle_request true now d p = handle_request false now d p) ∧
    ((p.msgType = some MessageType.Release ∨ p.msgType = some MessageType.Decline) →
      handle_request false now d p = ⟨d, none, false⟩) := by
  constructor
  · intro h; simp [handle_request, h]
  · rintro (h | h) <;> simp [handle_request, h]

/-- Instantiation of `for_this_server_advisory_for_request_only` at a
concrete Request and a concrete Release. -/
theorem for_this_server_advisory_witness :
    (handle_request true 3 heldD pktA = handle_request false 3 heldD pktA) ∧
    (handle_request false 3 heldD relA = ⟨heldD, none, false⟩) :=
  ⟨(for_this_server_advisory_for_request_only 3 heldD pktA).1 rfl,
   (for_this_server_advisory_for_request_only 3 heldD relA).2 (Or.inl rfl)⟩

/-- C8: the Request transition.  The requested address is option 50 when
present, else `ciaddr` (that is `Packet.req_ip`); when `current_lease`
holds an address for the client the handler Acks it unchanged, without
touching the store; otherwise it Naks with a reason string exactly when
`available` is false, and otherwise inserts a fresh lease for the
requested address, persists, and Acks the requested address. -/
theorem request_transition (fts : Bool) (now : Nat) (d : Dhcpd) (p : Packet)
    (hreq : p.msgType = some MessageType.Request) :
    (∀ ip, d.current_lease p.chaddr = some ip →
        handle_request fts now d p
          = ⟨d, some (d.reply MessageType.Ack ip), false⟩) ∧
    (d.current_lease p.chaddr = none →
      (d.available now p.chaddr p.req_ip = false →
          handle_request fts now d p
            = ⟨d, some (Dhcpd.nak "Requested IP not available"), false⟩) ∧
      (d.available now p.chaddr p.req_ip = true →
          handle_request fts now d p
            = ⟨{ d with
                  leases := d.leases.insert p.req_ip (Lease.new p.chaddr now) },
               some (d.reply MessageType.Ack p.req_ip), true⟩)) := by
  refine ⟨?_, ?_⟩
  · intro ip hcur
    simp [handle_request, hreq, hcur]
  · intro hcur
    constructor
    · intro hav
      simp [handle_request, hreq, hcur, hav]
    · intro hav
      simp [handle_request, hreq, hcur, hav]

/-- Instantiation of `request_transition`: on the empty store, `exMacA`
holds nothing and 10.0.0.15 is available, so its Request is Acked with a
fresh lease inserted and persisted. -/
theorem request_transition_witness :
    pktA.msgType = some MessageType.Request ∧
    exEmpty.current_lease pktA.chaddr = none ∧
    exEmpty.available 1000 pktA.chaddr pktA.req_ip = true ∧
    handle_request true 1000 exEmpty pktA
      = ⟨{ exEmpty with
            leases := exEmpty.leases.insert pktA.req_ip (Lease.new pktA.chaddr 1000) },
         some (exEmpty.reply MessageType.Ack pktA.req_ip), true⟩ :=
  ⟨rfl, rfl, rfl, ((request_transition true 1000 exEmpty pktA rfl).2 rfl).2 rfl⟩

/-- C2: every lease the Request handler creates is stored with expiry equal
to the insertion timestamp itself; consequently after such an insertion the
address reads as available to every hardware address at every strictly
later instant; and the configured lease duration influences nothing but
the `IpAddressLeaseTime` option of replies (store, cursor and persist flag
are unchanged by varying it, and replies agree once that option is
stripped). -/
theorem request_inserts_expiry_now :
    (∀ fts now d p ip l, p.msgType = some MessageType.Request →
        (handle_request fts now d p).state.leases.get ip = some l →
        d.leases.get ip = some l ∨ (ip = p.req_ip ∧ l = Lease.new p.chaddr now)) ∧
    (∀ fts now d p, p.msgType = some MessageType.Request →
        (handle_request fts now d p).saved = true →
        ∀ n2 h, now < n2 →
          (handle_request fts now d p).state.available n2 h p.req_ip = true) ∧
    (∀ fts now x d p,
        (handle_request fts now { d with lease_duration := x } p).state.leases
            = (handle_request fts now d p).state.leases ∧
        (handle_request fts now { d with lease_duration := x } p).state.last_lease
            = (handle_request fts now d p).state.last_lease ∧
        (handle_request fts now { d with lease_duration := x } p).saved
            = (handle_request fts now d p).saved ∧
        (handle_request fts now { d with lease_duration := x } p).reply.map
              Reply.stripLeaseTime
            = (handle_request fts now d p).reply.map Reply.stripLeaseTime) := by
  refine ⟨?_, ?_, ?_⟩
  · intro fts now d p ip l hreq hget
    cases hcur : d.current_lease p.chaddr with
    | some ip0 =>
        simp [handle_request, hreq, hcur] at hget
        exact Or.inl hget
    | none =>
        by_cases hav : d.available now p.chaddr p.req_ip
        · simp [handle_request, hreq, hcur, hav, get_insert] at hget
          split at hget
          · rename_i hip
            exact Or.inr ⟨hip, (Option.some.inj hget).symm⟩
          · exact Or.inl hget
        · simp [handle_request, hreq, hcur, hav] at hget
          exact Or.inl hget
  · intro fts now d p hreq hsaved n2 h hlt
    cases hcur : d.current_lease p.chaddr with
    | some ip0 => simp [handle_request, hreq, hcur] at hsaved
    | none =>
        by_cases hav : d.available now p.chaddr p.req_ip
        · have hb := available_true_bounds d now p.chaddr p.req_ip hav
          simp only [handle_request, hreq, hcur, hav]
          have h1 : Dhcpd.start_num
              { d with leases := d.leases.insert p.req_ip (Lease.new p.chaddr now) }
              = d.start_num := rfl
          have h2 : Dhcpd.lease_nums
              { d with leases := d.leases.insert p.req_ip (Lease.new p.chaddr now) }
              = d.lease_nums := rfl
          simp [Dhcpd.available, get_insert, h1, h2, Lease.new]
          exact ⟨⟨hb.1, hb.2⟩, Or.inr hlt⟩
        · simp [handle_request, hreq, hcur, hav] at hsaved
  · intro fts now x d p
    cases hm : p.msgType with
    | none => simp [handle_request, hm]
    | some t =>
        cases t with
        | Discover =>
            cases hcur : d.current_lease p.chaddr with
            | some ip =>
                simp [handle_request, hm, current_lease_set_duration, hcur,
                  reply_strip_set_duration]
            | none =>
                cases ha : allocLoop d now p.chaddr d.last_lease d.lease_nums with
                | mk ll ro =>
                    cases ro with
                    | none =>
                        simp [handle_request, hm, current_lease_set_duration, hcur,
                          allocLoop_set_duration, lease_nums_set_duration, ha]
                    | some off =>
                        simp [handle_request, hm, current_lease_set_duration, hcur,
                          allocLoop_set_duration, lease_nums_set_duration, ha,
                          reply_strip_set_duration]
        | Request =>
            cases hcur : d.current_lease p.chaddr with
            | some ip =>
                simp [handle_request, hm, current_lease_set_duration, hcur,
                  reply_strip_set_duration]
            | none =>
                by_cases hav : d.available now p.chaddr p.req_ip
                · simp [handle_request, hm, current_lease_set_duration, hcur,
                    available_set_duration, hav, reply_strip_set_duration]
                · simp [handle_request, hm, current_lease_set_duration, hcur,
                    available_set_duration, hav]
        | Release =>
            cases fts with
            | false => simp [handle_request, hm]
            | true =>
                cases hcur : d.current_lease p.chaddr with
                | some ip =>
                    simp [handle_request, hm, current_lease_set_duration, hcur]
                | none =>
                    simp [handle_request, hm, current_lease_set_duration, hcur]
        | Decline =>
            cases fts with
            | false => simp [handle_request, hm]
            | true =>
                cases hcur : d.current_lease p.chaddr with
                | some ip =>
                    simp [handle_request, hm, current_lease_set_duration, hcur]
                | none =>
                    simp [handle_request, hm, current_lease_set_duration, hcur]
        | Offer => simp [handle_request, hm]
        | Ack => simp [handle_request, hm]
        | Nak => simp [handle_request, hm]
        | Inform => simp [handle_request, hm]

/-- Instantiation of `request_inserts_expiry_now`: the lease inserted for
`exMacA` at time 1000 carries expiry 1000; at time 1001 the address is
available to `exMacB`; and dropping the lease duration to 3600 changes
nothing in the reply but the `IpAddressLeaseTime` option. -/
theorem request_inserts_expiry_now_witness :
    (exEmpty.leases.get 167772175 = some (Lease.new exMacA 1000) ∨
      (167772175 = pktA.req_ip ∧
        Lease.new exMacA 1000 = Lease.new pktA.chaddr 1000)) ∧
    (handle_request true 1000 exEmpty pktA).state.available 1001 exMacB
        pktA.req_ip = true ∧
    (handle_request true 1000 { exEmpty with lease_duration := 3600 } pktA).reply.map
        Reply.stripLeaseTime
      = (handle_request true 1000 exEmpty pktA).reply.map Reply.stripLeaseTime :=
  ⟨request_inserts_expiry_now.1 true 1000 exEmpty pktA 167772175
      (Lease.new exMacA 1000) rfl rfl,
   request_inserts_expiry_now.2.1 true 1000 exEmpty pktA rfl rfl 1001 exMacB
      (by decide),
   (request_inserts_expiry_now.2.2 true 1000 3600 exEmpty pktA).2.2.2⟩

theorem codeLastLease_cons (hd : Nat × Lease) (tl : List (Nat × Lease))
    (s e : Nat) :
    codeLastLease (hd :: tl) s e
      = if s < hd.1 ∧ hd.1 < e then max hd.1 (codeLastLease tl s e)
        else codeLastLease tl s e := by
  by_cases hin : s < hd.1 ∧ hd.1 < e
  · simp [codeLastLease, List.filter_cons, hin]
  · simp [codeLastLease, List.filter_cons, hin]

theorem foldl_last_lease (s e : Nat) (l : List (Nat × Lease)) : ∀ acc,
    List.foldl (fun a kv => if kv.1 > a ∧ kv.1 > s ∧ kv.1 < e then kv.1 else a)
        acc l
      = max acc (codeLastLease l s e) := by
  induction l with
  | nil => intro acc; simp [codeLastLease]
  | cons hd tl ih =>
      intro acc
      rw [List.foldl_cons, ih, codeLastLease_cons]
      by_cases hin : s < hd.1 ∧ hd.1 < e
      · rw [if_pos hin]
        by_cases hgt : hd.1 > acc
        · rw [if_pos ⟨hgt, hin.1, hin.2⟩]
          omega
        · rw [if_neg (by tauto)]
          omega
      · rw [if_neg hin, if_neg (by tauto)]

/-- C6: amended — `last_lease` is computed from the persistence-file
contents alone, before the static overlay, as the highest absolute u32
address strictly above `start` and strictly below `end` (0 when none
qualifies); and the allocator's first tested candidate is
`start_num + ((last_lease + 1) mod lease_nums)`, which is returned
immediately when available. -/
theorem last_lease_highest_persisted (persisted : LeaseMap)
    (lines : List (List Char)) (now s e : Nat) (ls : LeaseMap) (ll : Nat)
    (h : load_leases persisted lines now s e = some (ls, ll)) :
    ll = codeLastLease persisted s e ∧
    (∀ (d : Dhcpd) (n2 : Nat) (ch : Mac) (fuel : Nat), 0 < fuel →
      d.available n2 ch (d.start_num + (d.last_lease + 1) % d.lease_nums) = true →
      allocLoop d n2 ch d.last_lease fuel
        = ((d.last_lease + 1) % d.lease_nums,
           some (d.start_num + (d.last_lease + 1) % d.lease_nums))) := by
  constructor
  · cases hm : List.foldlM (load_static_line now) persisted lines with
    | none =>
        simp only [load_leases, hm] at h
        exact Option.noConfusion h
    | some ls2 =>
        simp only [load_leases, hm, Option.some.injEq, Prod.mk.injEq] at h
        rw [← h.2, foldl_last_lease]
        simp
  · intro d n2 ch fuel hf hav
    cases fuel with
    | zero => omega
    | succ n => simp [allocLoop, hav]

/-- Instantiation of `last_lease_highest_persisted`: loading the table
holding 10.0.0.12 over the pool [10.0.0.11, 10.0.0.21) yields the absolute
address 167772172 as cursor, and over the empty two-address pool the first
tested candidate (offset (0+1) mod 2 from the start) is offered at once. -/
theorem last_lease_highest_persisted_witness :
    (167772172 = codeLastLease persisted6 167772171 167772181) ∧
    allocLoop smallPool 0 exMacA smallPool.last_lease 2
      = ((smallPool.last_lease + 1) % smallPool.lease_nums,
         some (smallPool.start_num + (smallPool.last_lease + 1) % smallPool.lease_nums)) :=
  ⟨(last_lease_highest_persisted persisted6 [] 0 167772171 167772181 persisted6
      167772172 rfl).1,
   (last_lease_highest_persisted persisted6 [] 0 167772171 167772181 persisted6
      167772172 rfl).2 smallPool 0 exMacA 2 (by decide) (by decide)⟩

theorem bad_line_aborts (now : Nat) (line : List Char)
    (hbad : lineTwoFieldsBadParse line = true) (acc : LeaseMap) :
    load_static_line now acc line = none := by
  unfold lineTwoFieldsBadParse at hbad
  unfold load_static_line
  cases hsp : splitOnChar ',' line with
  | nil => rw [hsp] at hbad; simp at hbad
  | cons p0 rest =>
      cases rest with
      | nil => rw [hsp] at hbad; simp at hbad
      | cons p1 rest2 =>
          cases rest2 with
          | nil =>
              rw [hsp] at hbad
              simp only [] at hbad ⊢
              cases hm : parseMacAddress p0 with
              | none => simp [hm]
              | some mac =>
                  cases hi : parseIpv4 (trimList p1) with
                  | none => simp [hm, hi]
                  | some ip => rw [hm, hi] at hbad; simp at hbad
          | cons q qs => rw [hsp] at hbad; simp at hbad

theorem foldlM_bad_line (now : Nat) :
    ∀ (lines : List (List Char)) (acc : LeaseMap) line, line ∈ lines →
      lineTwoFieldsBadParse line = true →
      List.foldlM (load_static_line now) acc lines = none := by
  intro lines
  induction lines with
  | nil => intro acc line h; simp at h
  | cons l t ih =>
      intro acc line hmem hbad
      rcases List.mem_cons.mp hmem with rfl | hmem2
      · simp [List.foldlM_cons, bad_line_aborts now line hbad acc]
      · cases hl : load_static_line now acc l with
        | none => simp [List.foldlM_cons, hl]
        | some acc2 => simp [List.foldlM_cons, hl, ih acc2 line hmem2 hbad]

/-- C10: amended — a static-assignment line that splits on `,` into exactly
two fields but whose MAC or IP fails to parse aborts the whole load
(the `unwrap` panics, so `load_leases` yields no result), while a line that
does not split into exactly two fields is silently skipped, leaving the
table unchanged. -/
theorem static_line_parse_failure_aborts (persisted : LeaseMap)
    (lines : List (List Char)) (now s e : Nat) :
    (∀ line, line ∈ lines → lineTwoFieldsBadParse line = true →
        load_leases persisted lines now s e = none) ∧
    (∀ acc line, (splitOnChar ',' line).length ≠ 2 →
        load_static_line now acc line = some acc) := by
  constructor
  · intro line hmem hbad
    unfold load_leases
    rw [foldlM_bad_line now lines persisted line hmem hbad]
  · intro acc line hlen
    unfold load_static_line
    cases hsp : splitOnChar ',' line with
    | nil => rfl
    | cons p0 rest =>
        cases rest with
        | nil => rfl
        | cons p1 rest2 =>
            cases rest2 with
            | nil => exact absurd (by simp [hsp]) hlen
            | cons q qs => rfl

/-- Instantiation of `static_line_parse_failure_aborts`: a two-field line
with an unparsable MAC byte aborts the load, while the comma-free line
"garbage" is skipped. -/
theorem static_line_parse_failure_aborts_witness :
    load_leases [] ["aa:bb:cc:dd:ee:zz,1.2.3.4".toList] 0 167772170 167772180
      = none ∧
    load_static_line 0 [] "garbage".toList = some [] :=
  ⟨(static_line_parse_failure_aborts [] ["aa:bb:cc:dd:ee:zz,1.2.3.4".toList]
      0 167772170 167772180).1 "aa:bb:cc:dd:ee:zz,1.2.3.4".toList (by simp) rfl,
   (static_line_parse_failure_aborts [] [] 0 0 0).2 [] "garbage".toList
      (by decide)⟩

end Rdhcpd
